import Mathlib

/-!
Shallow embedding of the achievement execution engine of the
GitHub-Achievement-CLI repository:

* `src/types/index.ts`      — data model (records, statuses, results)
* `src/db/database.ts`      — JSON progress store (in-memory part)
* `src/utils/timing.ts`     — retry/backoff and the concurrency runner
* `src/utils/rateLimiter.ts`— sliding-window + concurrency rate limiter
* `src/utils/errors.ts`     — `wrapError`
* `src/achievements/base.ts`— `BaseAchievement.execute`

Effectful TypeScript is rendered as explicit state passing over a
`DatabaseData` value; wall-clock reads (`new Date().toISOString()`,
`Date.now()`) become explicit parameters; `Math.random()` jitter becomes an
explicit parameter; async nondeterminism (the order in which concurrently
running tasks complete) becomes an explicit completion-order parameter.
-/

namespace GHA

/-- Model of `TierLevel` from `src/types/index.ts`. -/
inductive TierLevel
  | default | bronze | silver | gold
deriving DecidableEq, Repr

/-- Model of `AchievementId` from `src/types/index.ts` (kebab-case literals renamed). -/
inductive AchievementId
  | pairExtraordinaire | pullShark | quickdraw | galaxyBrain | yolo
deriving DecidableEq, Repr

/-- Model of `OperationStatus` from `src/types/index.ts`. -/
inductive OperationStatus
  | pending | in_progress | completed | failed | skipped
deriving DecidableEq, Repr

/-- Model of `OperationType` from `src/types/index.ts`. -/
inductive OperationType
  | create_branch | create_commit | create_pr | merge_pr | delete_branch
  | create_issue | close_issue | create_discussion | create_answer
  | mark_accepted | merge_own_pr
deriving DecidableEq, Repr

/-- Model of `AchievementRecord` from `src/types/index.ts`. -/
structure AchievementRecord where
  id : AchievementId
  name : String
  tier : TierLevel
  targetCount : Nat
  completedCount : Nat
  status : OperationStatus
  createdAt : String
  updatedAt : String
deriving DecidableEq, Repr

/-- Model of `OperationRecord` from `src/types/index.ts`. -/
structure OperationRecord where
  id : Nat
  achievementId : AchievementId
  operationType : OperationType
  operationNumber : Nat
  status : OperationStatus
  prNumber : Option Nat := none
  branchName : Option String := none
  commitSha : Option String := none
  issueNumber : Option Nat := none
  discussionId : Option String := none
  errorMessage : Option String := none
  createdAt : String := ""
  updatedAt : String := ""
deriving DecidableEq, Repr

/-- The in-memory `DatabaseData` of `src/db/database.ts` (the `config` map and
the file round-trip are irrelevant to the claims and omitted; `achievements`
is the JS object keyed by achievement id). -/
structure DatabaseData where
  achievements : AchievementId → Option AchievementRecord
  operations : List OperationRecord
  nextOperationId : Nat

/-- Model of `ExecutionResult` from `src/types/index.ts`. -/
structure ExecutionResult where
  achievementId : AchievementId
  tier : TierLevel
  success : Bool
  completedOperations : Nat
  totalOperations : Nat
  errors : List String
  duration : Nat
  prNumbers : List Nat
deriving DecidableEq, Repr

/-- The payload returned by `executeOperation` in `src/achievements/base.ts`. -/
structure OpPayload where
  prNumber : Option Nat := none
  branchName : Option String := none
  commitSha : Option String := none
  issueNumber : Option Nat := none
  discussionId : Option String := none
deriving DecidableEq, Repr

/-- A thrown JS error value, as far as the engine inspects it: its message and
whether it is already an `AchievementError` (`src/utils/errors.ts`). -/
structure ErrorValue where
  message : String
  isAchievement : Bool := false
deriving DecidableEq, Repr

/-- Substring test on character lists (used to model
`String.prototype.includes`). -/
def listStartsWith : List Char → List Char → Bool
  | [], _ => true
  | _ :: _, [] => false
  | a :: as, b :: bs => a == b && listStartsWith as bs

/-- Model of `haystack.includes(needle)` on character lists. -/
def listIncludes (needle : List Char) : List Char → Bool
  | [] => listStartsWith needle []
  | s@(_ :: rest) => listStartsWith needle s || listIncludes needle rest

/-- Model of `msg.includes(pat)` from `wrapError` in `src/utils/errors.ts`. -/
def strIncludes (s pat : String) : Bool :=
  listIncludes pat.toList s.toList

/-- Model of `s.startsWith(pat)` (used to state facts about the error-message
labels produced by `execute()`). -/
def strStartsWith (s pat : String) : Bool :=
  listStartsWith pat.toList s.toList

/-- ASCII lowering of one character (the fragment of
`String.prototype.toLowerCase` exercised by `wrapError`). -/
def charToLower (c : Char) : Char :=
  if 65 ≤ c.toNat ∧ c.toNat ≤ 90 then Char.ofNat (c.toNat + 32) else c

/-- Model of `error.message.toLowerCase()` from `wrapError`. -/
def strToLower (s : String) : String :=
  String.mk (s.toList.map charToLower)

/-- Model of `wrapError` from `src/utils/errors.ts`, restricted to the part observable
through `.message` (stack traces, codes and suggestions are not read by the
engine).  An `AchievementError` is returned as-is; otherwise the lowercased
message is pattern-matched.  Every branch except the rate-limit one preserves
the message; `RateLimitError` rebuilds it from the reset time, which
`wrapError` sets to one hour from now, giving a 60-minute wait message. -/
def wrapError (e : ErrorValue) : ErrorValue :=
  if e.isAchievement then e
  else
    let msg := strToLower e.message
    if strIncludes msg ("bad credentials") || strIncludes msg ("unauthorized") then
      { message := e.message, isAchievement := true }
    else if strIncludes msg ("rate limit") then
      { message := "GitHub API rate limit exceeded. Resets in 60 minutes.",
        isAchievement := true }
    else if strIncludes msg ("not found") then
      { message := e.message, isAchievement := true }
    else if strIncludes msg ("network") || strIncludes msg ("econnrefused")
        || strIncludes msg ("etimedout") then
      { message := e.message, isAchievement := true }
    else
      { message := e.message, isAchievement := true }

/-! ## Progress store (`src/db/database.ts`) -/

/-- Model of `upsertAchievement(id, name, tier, targetCount)` from `src/db/database.ts`
(`now` stands for `new Date().toISOString()`).  An existing record keeps every
field except `tier`, `targetCount`, `updatedAt`; a missing one is created
fresh with `completedCount: 0` and status `pending`. -/
def upsertAchievement (db : DatabaseData) (id : AchievementId) (name : String)
    (tier : TierLevel) (targetCount : Nat) (now : String) : DatabaseData :=
  match db.achievements id with
  | some existing =>
      { db with achievements := fun j =>
          if j = id then
            some { existing with
                   tier := tier
                   targetCount := targetCount
                   updatedAt := now }
          else db.achievements j }
  | none =>
      { db with achievements := fun j =>
          if j = id then
            some { id := id
                   name := name
                   tier := tier
                   targetCount := targetCount
                   completedCount := 0
                   status := OperationStatus.pending
                   createdAt := now
                   updatedAt := now }
          else db.achievements j }

/-- Model of `updateAchievementStatus(id, status)` from `src/db/database.ts`: a no-op
when the record does not exist. -/
def updateAchievementStatus (db : DatabaseData) (id : AchievementId)
    (status : OperationStatus) (now : String) : DatabaseData :=
  match db.achievements id with
  | some r =>
      { db with achievements := fun j =>
          if j = id then some { r with status := status, updatedAt := now }
          else db.achievements j }
  | none => db

/-- Model of `updateAchievementProgress(id, completedCount)` from `src/db/database.ts`. -/
def updateAchievementProgress (db : DatabaseData) (id : AchievementId)
    (completedCount : Nat) (now : String) : DatabaseData :=
  match db.achievements id with
  | some r =>
      { db with achievements := fun j =>
          if j = id then
            some { r with completedCount := completedCount, updatedAt := now }
          else db.achievements j }
  | none => db

/-- Model of `createOperation(operation)` from `src/db/database.ts`: assigns
`nextOperationId`, appends, returns the id. -/
def createOperation (db : DatabaseData) (achievementId : AchievementId)
    (operationType : OperationType) (operationNumber : Nat)
    (status : OperationStatus) (now : String) : DatabaseData × Nat :=
  let opId := db.nextOperationId
  ({ db with
      operations := db.operations ++
        [{ id := opId
           achievementId := achievementId
           operationType := operationType
           operationNumber := operationNumber
           status := status
           createdAt := now
           updatedAt := now }]
      nextOperationId := db.nextOperationId + 1 },
   opId)

/-- Model of `updateOperation(id, updates)` from `src/db/database.ts`, specialised to
the one call site in `BaseAchievement.execute`: status becomes `completed` and
the payload fields are overwritten (JS spread writes each listed key, possibly
with `undefined`). -/
def markOperationCompleted (db : DatabaseData) (opId : Nat)
    (payload : OpPayload) (now : String) : DatabaseData :=
  { db with operations := db.operations.map fun op =>
      if op.id = opId then
        { op with
          status := OperationStatus.completed
          prNumber := payload.prNumber
          branchName := payload.branchName
          commitSha := payload.commitSha
          issueNumber := payload.issueNumber
          discussionId := payload.discussionId
          updatedAt := now }
      else op }

/-- Action of the `resetStuckOperations` loop on one record: stuck records
(matching `achievementId`, status `in_progress`) flip to `pending` with a
fresh `updatedAt`; every other record is untouched. -/
def resetStuckOne (k : AchievementId) (now : String) (op : OperationRecord) :
    OperationRecord :=
  if op.achievementId = k ∧ op.status = OperationStatus.in_progress then
    { op with status := OperationStatus.pending, updatedAt := now }
  else op

/-- The loop body of `resetStuckOperations` from `src/db/database.ts`:
rewrites each stuck (`achievementId` matches, status `in_progress`) record to
`pending`, counting the rewrites. -/
def resetStuckList (k : AchievementId) (now : String) :
    List OperationRecord → List OperationRecord × Nat
  | [] => ([], 0)
  | op :: rest =>
      if op.achievementId = k ∧ op.status = OperationStatus.in_progress then
        ({ op with status := OperationStatus.pending, updatedAt := now }
           :: (resetStuckList k now rest).1, (resetStuckList k now rest).2 + 1)
      else
        (op :: (resetStuckList k now rest).1, (resetStuckList k now rest).2)

/-- Model of `resetStuckOperations(achievementId)` from `src/db/database.ts`. -/
def resetStuckOperations (db : DatabaseData) (k : AchievementId)
    (now : String) : DatabaseData × Nat :=
  ({ db with operations := (resetStuckList k now db.operations).1 },
   (resetStuckList k now db.operations).2)

/-- Model of `Set.prototype.add`: JS sets ignore duplicates; modelled as a list with
membership-guarded append. -/
def setAdd (s : List Nat) (n : Nat) : List Nat :=
  if n ∈ s then s else s ++ [n]

/-- Model of `getCompletedOperationNumbers(achievementId)` from `src/db/database.ts`: a
`Set` of the operation numbers of completed operations, modelled as a
duplicate-free list built in iteration order. -/
def getCompletedOperationNumbers (db : DatabaseData) (k : AchievementId) :
    List Nat :=
  db.operations.foldl
    (fun acc op =>
      if op.achievementId = k ∧ op.status = OperationStatus.completed then
        setAdd acc op.operationNumber
      else acc)
    []

/-! ## Retry / backoff (`src/utils/timing.ts`) -/

/-- Model of `MAX_DELAY` from `src/utils/timing.ts`. -/
def MAX_DELAY : ℚ := 60000

/-- Model of `getBackoffDelay(attempt, baseDelay)` from `src/utils/timing.ts`; the
`Math.random() * 1000` jitter is passed in explicitly. -/
def getBackoffDelay (attempt : Nat) (baseDelay : ℚ) (jitter : ℚ) : ℚ :=
  let exponentialDelay := baseDelay * 2 ^ attempt
  min (exponentialDelay + jitter) MAX_DELAY

/-- Model of the jitter expression `Math.random() * 1000` of
`getBackoffDelay`, with `u` standing for the `Math.random()` draw in
`[0, 1)`. -/
def jitterOf (u : ℚ) : ℚ := u * 1000

/-- The trace of one `retry(fn, options)` run (`src/utils/timing.ts`): the
final outcome, the number of calls made to `fn`, and the list of backoff
delays awaited (in order). -/
structure RetryTrace (E A : Type) where
  outcome : Except E A
  calls : Nat
  delays : List ℚ
deriving Repr

/-- The `for (attempt = 0; attempt <= maxRetries; attempt++)` loop of `retry`
(`src/utils/timing.ts`).  `f i` is the outcome of the `i`-th invocation of
`fn`; `remaining = maxRetries - attempt` counts the iterations still allowed,
so `remaining = 0` exactly when `attempt === maxRetries`.  On failure with
retries left and `shouldRetry error` true, the loop awaits
`backoff(attempt, baseDelay)` and continues; otherwise the original error is
rethrown. -/
def retryLoop (f : Nat → Except E A) (shouldRetry : E → Bool)
    (baseDelay : ℚ) (jitter : Nat → ℚ) :
    (remaining : Nat) → (attempt : Nat) → RetryTrace E A
  | 0, attempt =>
      match f attempt with
      | Except.ok a => ⟨Except.ok a, 1, []⟩
      | Except.error e => ⟨Except.error e, 1, []⟩
  | remaining + 1, attempt =>
      match f attempt with
      | Except.ok a => ⟨Except.ok a, 1, []⟩
      | Except.error e =>
          if shouldRetry e then
            let t := retryLoop f shouldRetry baseDelay jitter remaining
              (attempt + 1)
            ⟨t.outcome, t.calls + 1,
             getBackoffDelay attempt baseDelay (jitter attempt) :: t.delays⟩
          else
            ⟨Except.error e, 1, []⟩

/-- Model of `retry(fn, { maxRetries, baseDelay, shouldRetry })` from
`src/utils/timing.ts`, instrumented with its call count and awaited delays. -/
def retryRun (f : Nat → Except E A) (shouldRetry : E → Bool)
    (maxRetries : Nat) (baseDelay : ℚ) (jitter : Nat → ℚ) : RetryTrace E A :=
  retryLoop f shouldRetry baseDelay jitter maxRetries 0

/-! ## Concurrency runner (`src/utils/timing.ts`) -/

/-- One element of the array returned by `runWithConcurrency`
(`{ success, result?, error?, index }`). -/
structure TaskResult (E A : Type) where
  success : Bool
  result : Option A
  error : Option E
  index : Nat
deriving DecidableEq, Repr

/-- The entry `runWithConcurrency` pushes for the task at `index`, given the
outcome of that task. -/
def taskEntry (outcomes : List (Except E A)) (index : Nat) : TaskResult E A :=
  match outcomes.get? index with
  | some (Except.ok a) => ⟨true, some a, none, index⟩
  | some (Except.error e) => ⟨false, none, some e, index⟩
  | none => ⟨false, none, none, index⟩

/-- Insertion step of the final `results.sort((a, b) => a.index - b.index)`. -/
def insertByIndex (x : TaskResult E A) : List (TaskResult E A) →
    List (TaskResult E A)
  | [] => [x]
  | y :: ys =>
      if x.index ≤ y.index then x :: y :: ys else y :: insertByIndex x ys

/-- Model of `results.sort((a, b) => a.index - b.index)`: the task indices are
pairwise distinct, so any comparison sort yields this unique
sorted-by-index order. -/
def sortByIndex (l : List (TaskResult E A)) : List (TaskResult E A) :=
  l.foldr insertByIndex []

/-- Model of `runWithConcurrency(tasks, concurrency, onProgress)` from
`src/utils/timing.ts`.  Each task either resolves or rejects; `outcomes`
lists those eventual outcomes by submission index.  The source spawns
`Math.min(concurrency, tasks.length)` workers (line 293); when that count is
zero — limit 0, or no tasks — no worker ever runs, `Promise.all([])`
resolves immediately, and the empty results array is returned.  Otherwise
each worker repeatedly claims the next unclaimed index until none remain, so
every task completes, in a schedule-dependent interleaving; `order` is the
sequence of indices in completion order (a permutation of `0..N-1` in any
real run — the model is total and ignores out-of-range entries only through
`taskEntry`).  Entries are pushed in completion order and finally sorted by
submission index. -/
def runWithConcurrency (outcomes : List (Except E A)) (concurrency : Nat)
    (order : List Nat) : List (TaskResult E A) :=
  if min concurrency outcomes.length = 0 then []
  else sortByIndex (order.map (taskEntry outcomes))

/-! ## Rate limiter (`src/utils/rateLimiter.ts`) -/

/-- Model of `RateLimiterConfig` from `src/utils/rateLimiter.ts` (`backoffBaseMs` is
not used by the modelled entry points). -/
structure RateLimiterConfig where
  maxPerMinute : Nat
  maxConcurrent : Nat
deriving DecidableEq, Repr

/-- The mutable fields of class `RateLimiter` read and written by
`acquire`/`release`/`reset` (`waitQueue` is only ever shifted and never
observed, so it is omitted).  `activeRequests` is an integer so that the
`Math.max(0, …)` clamp in `release` is visible. -/
structure LimiterState where
  requestTimestamps : List Int
  activeRequests : Int
deriving DecidableEq, Repr

/-- The fresh limiter state (constructor of `RateLimiter`). -/
def limiterInit : LimiterState := ⟨[], 0⟩

/-- Model of `cleanupOldTimestamps()` from `src/utils/rateLimiter.ts`: drop timestamps
at or before `now - 60000`. -/
def cleanupOldTimestamps (now : Int) (s : LimiterState) : LimiterState :=
  { s with requestTimestamps :=
      s.requestTimestamps.filter fun ts => decide (ts > now - 60000) }

/-- Model of `canProceed()` from `src/utils/rateLimiter.ts` (it first mutates the
state via `cleanupOldTimestamps`; the cleaned state is returned alongside). -/
def canProceed (cfg : RateLimiterConfig) (now : Int) (s : LimiterState) :
    Bool × LimiterState :=
  let s1 := cleanupOldTimestamps now s
  (decide (s1.activeRequests < (cfg.maxConcurrent : Int)) &&
     decide (s1.requestTimestamps.length < cfg.maxPerMinute), s1)

/-- Events observable on the limiter.  `acquire now` is one poll of the
`while (!this.canProceed())` loop in `acquire()` at time `now`: when
`canProceed` holds the caller exits the loop and — synchronously, with no
`await` between the check and the mutations — increments `activeRequests` and
pushes a timestamp; when it does not hold the poll leaves only the cleanup
mutation behind and the caller keeps waiting. -/
inductive LimiterEvent
  | acquire (now : Int)
  | release
  | reset

/-- One step of the limiter: `acquire` polls (`src/utils/rateLimiter.ts`
lines 93–107), `release()` clamps the decrement at zero, `reset()` clears
everything. -/
def limiterStep (cfg : RateLimiterConfig) (s : LimiterState) :
    LimiterEvent → LimiterState
  | LimiterEvent.acquire now =>
      if (canProceed cfg now s).1 then
        { activeRequests := (canProceed cfg now s).2.activeRequests + 1
          requestTimestamps := (canProceed cfg now s).2.requestTimestamps
            ++ [now] }
      else (canProceed cfg now s).2
  | LimiterEvent.release =>
      { s with activeRequests := max 0 (s.activeRequests - 1) }
  | LimiterEvent.reset => limiterInit

/-- The state after a sequence of events starting from a fresh limiter. -/
def limiterRun (cfg : RateLimiterConfig) (events : List LimiterEvent) :
    LimiterState :=
  events.foldl (limiterStep cfg) limiterInit

/-! ## `BaseAchievement.execute` (`src/achievements/base.ts`)

`execute()` is async and effectful; its environment is made explicit:
`taskOutcome n` is the eventual outcome of `this.executeOperation(n)`,
`order` is the completion order of the concurrently running tasks (positions
into the pending list), `now` stands for the clock readings used in store
writes and `duration` for `Date.now() - startTime` at return time.

The store helpers it calls are synchronous in the source; a thrown storage
error at one of those call sites is modelled by the `Faults` record: `some e`
means that call throws `e`.  The first four call sites (`upsertAchievement`,
`updateAchievementStatus`, `resetStuckOperations`,
`getCompletedOperationNumbers`, lines 101–117) sit *before* the `try` block;
only `bodyErr` (a throw inside the `try` block, lines 126–217) is in reach of
the `catch`. -/

/-- Environment of one `execute()` run. -/
structure ExecEnv where
  taskOutcome : Nat → Except ErrorValue OpPayload
  order : List Nat
  now : String
  duration : Nat

/-- Fault injection for the store call sites inside `execute()`. -/
structure Faults where
  upsertErr : Option ErrorValue := none
  statusErr : Option ErrorValue := none
  resetErr : Option ErrorValue := none
  completedErr : Option ErrorValue := none
  bodyErr : Option ErrorValue := none

/-- The fault-free environment. -/
def noFaults : Faults := {}

/-- The `for (let i = 1; i <= this.targetCount; i++) if (!completed.has(i))
pendingOps.push(i)` loop of `execute()`. -/
def pendingOpsOf (targetCount : Nat) (completedNums : List Nat) : List Nat :=
  (List.range' 1 targetCount).filter fun i => decide (i ∉ completedNums)

/-- The store state after the setup phase of `execute()` (upsert, status
`in_progress`, stuck-operation reset — lines 101–113). -/
def executeSetupDb (db : DatabaseData) (k : AchievementId) (name : String)
    (tier : TierLevel) (targetCount : Nat) (now : String) : DatabaseData :=
  let db1 := upsertAchievement db k name tier targetCount now
  let db2 := updateAchievementStatus db1 k OperationStatus.in_progress now
  (resetStuckOperations db2 k now).1

/-- The completed-number set `execute()` computes (line 116): read from the
post-reset store. -/
def executeCompletedNums (db : DatabaseData) (k : AchievementId)
    (name : String) (tier : TierLevel) (targetCount : Nat) (now : String) :
    List Nat :=
  getCompletedOperationNumbers (executeSetupDb db k name tier targetCount now) k

/-- The pending list `execute()` builds (lines 128–133). -/
def executePendingOps (db : DatabaseData) (k : AchievementId) (name : String)
    (tier : TierLevel) (targetCount : Nat) (now : String) : List Nat :=
  pendingOpsOf targetCount (executeCompletedNums db k name tier targetCount now)

/-- Store effect of one task (lines 136–171): `createOperation(in_progress)`,
then on success of `executeOperation` the record is marked completed with the
payload; on a throw the record is left `in_progress` (the `finally` only
releases the rate limiter). -/
def taskEffect (k : AchievementId) (opType : OperationType)
    (taskOutcome : Nat → Except ErrorValue OpPayload) (now : String)
    (db : DatabaseData) (opNum : Nat) : DatabaseData :=
  let db1 := (createOperation db k opType opNum
    OperationStatus.in_progress now).1
  let opId := (createOperation db k opType opNum
    OperationStatus.in_progress now).2
  match taskOutcome opNum with
  | Except.ok payload => markOperationCompleted db1 opId payload now
  | Except.error _ => db1

/-- One completed task, as seen by the store: the task effect of the claimed
pending index, followed by the progress-callback write of
`completedOperations.size + done` (lines 174–182). -/
def runTaskStep (k : AchievementId) (opType : OperationType)
    (taskOutcome : Nat → Except ErrorValue OpPayload) (now : String)
    (pendingOps : List Nat) (completedStart : Nat)
    (acc : DatabaseData × Nat) (idx : Nat) : DatabaseData × Nat :=
  let opNum := pendingOps.getD idx 0
  let dbT := taskEffect k opType taskOutcome now acc.1 opNum
  let done := acc.2 + 1
  (updateAchievementProgress dbT k (completedStart + done) now, done)

/-- Store state evolution over the run: tasks apply their effects in
completion order (lines 174–182). -/
def runTasksDb (k : AchievementId) (opType : OperationType)
    (taskOutcome : Nat → Except ErrorValue OpPayload) (now : String)
    (pendingOps : List Nat) (completedStart : Nat) (db : DatabaseData)
    (order : List Nat) : DatabaseData :=
  (order.foldl (runTaskStep k opType taskOutcome now pendingOps completedStart)
    (db, 0)).1

/-- The result-processing loop of `execute()` (lines 185–196): collect PR
numbers of successful tasks and, per failed task, push
`Operation (index+1): (wrapped message)`. -/
def processResults (results : List (TaskResult ErrorValue OpPayload)) :
    List Nat × List String :=
  results.foldl
    (fun acc res =>
      if res.success then
        match res.result with
        | some payload =>
            match payload.prNumber with
            | some pr => (acc.1 ++ [pr], acc.2)
            | none => acc
        | none => acc
      else
        match res.error with
        | some e =>
            (acc.1,
             acc.2 ++ ["Operation " ++ toString (res.index + 1) ++ ": "
               ++ (wrapError e).message])
        | none => acc)
    ([], [])

/-- Model of `BaseAchievement.execute()` (`src/achievements/base.ts`, lines 89–233).
`concurrency` is the configured `this.config.concurrency`; line 119 replaces
a falsy (zero) value by the default 3 (`this.config.concurrency || 3`)
before handing it to the concurrency runner.  Returns `Except.error e` when
a thrown `e` escapes the call; otherwise the final store state and the
`ExecutionResult`. -/
def execute (db : DatabaseData) (k : AchievementId) (name : String)
    (tier : TierLevel) (targetCount : Nat) (concurrency : Nat)
    (opType : OperationType) (env : ExecEnv) (faults : Faults) :
    Except ErrorValue (DatabaseData × ExecutionResult) :=
  match faults.upsertErr with
  | some e => Except.error e
  | none =>
  let db1 := upsertAchievement db k name tier targetCount env.now
  match faults.statusErr with
  | some e => Except.error e
  | none =>
  let db2 := updateAchievementStatus db1 k OperationStatus.in_progress env.now
  match faults.resetErr with
  | some e => Except.error e
  | none =>
  let db3 := (resetStuckOperations db2 k env.now).1
  match faults.completedErr with
  | some e => Except.error e
  | none =>
  let completedNums := getCompletedOperationNumbers db3 k
  let completedStart := completedNums.length
  let conc := if concurrency = 0 then 3 else concurrency
  match faults.bodyErr with
  | some e =>
      let dbF := updateAchievementStatus db3 k OperationStatus.failed env.now
      Except.ok (dbF,
        { achievementId := k
          tier := tier
          success := false
          completedOperations := completedStart
          totalOperations := targetCount
          errors := [(wrapError e).message]
          duration := env.duration
          prNumbers := [] })
  | none =>
  let pendingOps := pendingOpsOf targetCount completedNums
  let dbRun := runTasksDb k opType env.taskOutcome env.now pendingOps
    completedStart db3 env.order
  let results := runWithConcurrency (pendingOps.map env.taskOutcome) conc
    env.order
  let processed := processResults results
  let successCount := (results.filter fun r => r.success).length
  let completed := completedStart + successCount
  let finalStatus := if targetCount ≤ completed then OperationStatus.completed
    else OperationStatus.failed
  let dbFinal := updateAchievementStatus dbRun k finalStatus env.now
  Except.ok (dbFinal,
    { achievementId := k
      tier := tier
      success := decide (targetCount ≤ completed)
      completedOperations := completed
      totalOperations := targetCount
      errors := processed.2
      duration := env.duration
      prNumbers := processed.1 })

/-! ## Concrete sample inputs (used by counterexamples and witnesses) -/

/-- A completed `pull-shark` operation record with sequence number `n`. -/
def sampleCompletedOp (n : Nat) : OperationRecord :=
  { id := n
    achievementId := AchievementId.pullShark
    operationType := OperationType.create_pr
    operationNumber := n
    status := OperationStatus.completed
    createdAt := "t0"
    updatedAt := "t0" }

/-- A store in which sequence numbers 1, 2, 3 of `pull-shark` are completed. -/
def sampleDb : DatabaseData :=
  ⟨fun _ => none, [sampleCompletedOp 1, sampleCompletedOp 2, sampleCompletedOp 3], 10⟩

/-- A non-retryable task error whose message matches none of the `wrapError`
patterns. -/
def errBoom : ErrorValue := ⟨"boom", false⟩

/-- The scenario environment of claim C4: the task for sequence number 6
rejects with `errBoom`, all others resolve; tasks complete in submission
order. -/
def sampleEnv : ExecEnv :=
  { taskOutcome := fun n => if n = 6 then Except.error errBoom else Except.ok {}
    order := List.range 7
    now := "t1"
    duration := 42 }

/-- An environment with no pending work (used with target count 2 against
`sampleDb`, where numbers 1–3 are already completed). -/
def sampleEnvEmpty : ExecEnv :=
  { taskOutcome := fun _ => Except.ok {}
    order := []
    now := "t1"
    duration := 7 }

/-- A storage error for fault injection. -/
def errDisk : ErrorValue := ⟨"disk full", false⟩

/-- A fallible operation: the first two invocations fail, the third
succeeds. -/
def sampleRetryF (i : Nat) : Except ErrorValue Nat :=
  if i < 2 then Except.error errBoom else Except.ok 7

/-- A `shouldRetry` predicate that treats every failure as transient. -/
def sampleShouldRetry (_ : ErrorValue) : Bool := true

/-- A jitter draw sequence for the retry witness. -/
def sampleJitter (_ : Nat) : ℚ := 0

/-- Sample task outcomes for the concurrency runner. -/
def sampleOutcomes : List (Except ErrorValue Nat) :=
  [Except.ok 1, Except.error errBoom, Except.ok 5]

/-- A completion order in which the tasks finish out of submission order. -/
def sampleOrder : List Nat := [2, 0, 1]

/-- A sample achievement record (used to exercise the update branch of
`upsertAchievement`). -/
def sampleRecord : AchievementRecord :=
  { id := AchievementId.quickdraw
    name := "Quickdraw"
    tier := TierLevel.bronze
    targetCount := 16
    completedCount := 5
    status := OperationStatus.failed
    createdAt := "t0"
    updatedAt := "t0" }

/-- A stuck (`in_progress`) operation record. -/
def sampleStuckOp : OperationRecord :=
  { id := 4
    achievementId := AchievementId.quickdraw
    operationType := OperationType.create_issue
    operationNumber := 4
    status := OperationStatus.in_progress
    createdAt := "t0"
    updatedAt := "t0" }

/-- A store holding `sampleRecord` under `quickdraw`, one stuck
(`in_progress`) operation and one completed operation. -/
def sampleDb2 : DatabaseData :=
  ⟨fun j => if j = AchievementId.quickdraw then some sampleRecord else none,
   [sampleStuckOp, sampleCompletedOp 2], 10⟩

/-! ## Rate limiter theorems -/

theorem cleanup_activeRequests (now : Int) (s : LimiterState) :
    (cleanupOldTimestamps now s).activeRequests = s.activeRequests := rfl

theorem canProceed_snd (cfg : RateLimiterConfig) (now : Int)
    (s : LimiterState) :
    (canProceed cfg now s).2 = cleanupOldTimestamps now s := rfl

theorem canProceed_true_iff (cfg : RateLimiterConfig) (now : Int)
    (s : LimiterState) :
    (canProceed cfg now s).1 = true ↔
      s.activeRequests < (cfg.maxConcurrent : Int) ∧
      (cleanupOldTimestamps now s).requestTimestamps.length <
        cfg.maxPerMinute := by
  simp [canProceed, cleanup_activeRequests]

theorem limiterStep_acquire_active (cfg : RateLimiterConfig)
    (s : LimiterState) (now : Int) :
    (limiterStep cfg s (LimiterEvent.acquire now)).activeRequests =
      if (canProceed cfg now s).1 then s.activeRequests + 1
      else s.activeRequests := by
  by_cases h : (canProceed cfg now s).1 <;>
    simp [limiterStep, h, canProceed_snd, cleanup_activeRequests]

theorem limiterStep_active_bounds (cfg : RateLimiterConfig) (s : LimiterState)
    (ev : LimiterEvent) (h0 : 0 ≤ s.activeRequests)
    (h1 : s.activeRequests ≤ (cfg.maxConcurrent : Int)) :
    0 ≤ (limiterStep cfg s ev).activeRequests ∧
      (limiterStep cfg s ev).activeRequests ≤ (cfg.maxConcurrent : Int) := by
  cases ev with
  | acquire now =>
      rw [limiterStep_acquire_active]
      by_cases h : (canProceed cfg now s).1
      · rw [if_pos h]
        have hlt := ((canProceed_true_iff cfg now s).1 h).1
        omega
      · rw [if_neg h]
        exact ⟨h0, h1⟩
  | release =>
      refine ⟨le_max_left _ _, max_le (le_trans h0 h1) (by omega)⟩
  | reset =>
      exact ⟨le_refl _, Int.natCast_nonneg _⟩

theorem limiterFoldl_bounds (cfg : RateLimiterConfig) :
    ∀ (events : List LimiterEvent) (s : LimiterState),
      0 ≤ s.activeRequests → s.activeRequests ≤ (cfg.maxConcurrent : Int) →
      0 ≤ (events.foldl (limiterStep cfg) s).activeRequests ∧
        (events.foldl (limiterStep cfg) s).activeRequests ≤
          (cfg.maxConcurrent : Int)
  | [], _, h0, h1 => ⟨h0, h1⟩
  | ev :: rest, s, h0, h1 => by
      have h := limiterStep_active_bounds cfg s ev h0 h1
      simpa using limiterFoldl_bounds cfg rest (limiterStep cfg s ev) h.1 h.2

theorem limiterRun_active_bounds (cfg : RateLimiterConfig)
    (events : List LimiterEvent) :
    0 ≤ (limiterRun cfg events).activeRequests ∧
      (limiterRun cfg events).activeRequests ≤ (cfg.maxConcurrent : Int) :=
  limiterFoldl_bounds cfg events limiterInit (le_refl 0) (Int.natCast_nonneg _)

/-- C8: in every state reachable by any sequence of acquire polls, releases
and resets, the active-count never exceeds `maxConcurrent`; moreover one
acquire poll increments the active-count exactly when `canProceed` observed
both `activeRequests < maxConcurrent` and fewer than `maxPerMinute`
timestamps in the last 60 seconds, and in that case it records the new
timestamp in the same atomic step (the source has no `await` between the
check and the two mutations). -/
theorem rateLimiter_concurrency_bound (cfg : RateLimiterConfig)
    (events : List LimiterEvent) (s : LimiterState) (now : Int) :
    (limiterRun cfg events).activeRequests ≤ (cfg.maxConcurrent : Int) ∧
    ((limiterStep cfg s (LimiterEvent.acquire now)).activeRequests =
      if (canProceed cfg now s).1 then s.activeRequests + 1
      else s.activeRequests) ∧
    ((canProceed cfg now s).1 = true →
      (limiterStep cfg s (LimiterEvent.acquire now)).requestTimestamps =
        (cleanupOldTimestamps now s).requestTimestamps ++ [now]) := by
  refine ⟨(limiterRun_active_bounds cfg events).2,
    limiterStep_acquire_active cfg s now, ?_⟩
  intro h
  simp [limiterStep, h, canProceed_snd]

theorem rateLimiter_concurrency_bound_witness :
    (limiterStep ⟨15, 2⟩ limiterInit (LimiterEvent.acquire 0)).requestTimestamps
      = ([] : List Int) ++ [0] :=
  (rateLimiter_concurrency_bound ⟨15, 2⟩ [] limiterInit 0).2.2 (by decide)

/-- C10: the active-count is never negative in any reachable state; a
release clamps the decrement at zero even when unpaired, and a reset
restores the counter to exactly 0 and clears the window. -/
theorem rateLimiter_active_nonneg (cfg : RateLimiterConfig)
    (events : List LimiterEvent) (s : LimiterState) :
    0 ≤ (limiterRun cfg events).activeRequests ∧
    (limiterStep cfg s LimiterEvent.release).activeRequests =
      max 0 (s.activeRequests - 1) ∧
    0 ≤ (limiterStep cfg s LimiterEvent.release).activeRequests ∧
    (limiterStep cfg s LimiterEvent.reset).activeRequests = 0 ∧
    (limiterStep cfg s LimiterEvent.reset).requestTimestamps = [] :=
  ⟨(limiterRun_active_bounds cfg events).1, rfl, le_max_left _ _, rfl, rfl⟩

/-! ## Progress store frame theorem -/

/-- C9: `upsertAchievement` leaves the operations list, the id counter and
every other achievement entry untouched; an existing record keeps its
completed-count, status, created-at (and name), getting only tier, target
count and updated-at overwritten; a missing record is created fresh with
completed-count 0 and status pending. -/
theorem upsertAchievement_frame (db : DatabaseData) (id : AchievementId)
    (name : String) (tier : TierLevel) (targetCount : Nat) (now : String) :
    (upsertAchievement db id name tier targetCount now).operations =
      db.operations ∧
    (upsertAchievement db id name tier targetCount now).nextOperationId =
      db.nextOperationId ∧
    (∀ j, j ≠ id →
      (upsertAchievement db id name tier targetCount now).achievements j =
        db.achievements j) ∧
    (∀ r, db.achievements id = some r →
      (upsertAchievement db id name tier targetCount now).achievements id =
        some { r with
               tier := tier
               targetCount := targetCount
               updatedAt := now }) ∧
    (db.achievements id = none →
      (upsertAchievement db id name tier targetCount now).achievements id =
        some ⟨id, name, tier, targetCount, 0, OperationStatus.pending,
          now, now⟩) := by
  unfold upsertAchievement
  cases h : db.achievements id with
  | some existing =>
      refine ⟨rfl, rfl, ?_, ?_, ?_⟩
      · intro j hj
        simp [hj]
      · intro r hr
        cases hr
        simp
      · intro hn
        cases hn
  | none =>
      refine ⟨rfl, rfl, ?_, ?_, ?_⟩
      · intro j hj
        simp [hj]
      · intro r hr
        cases hr
      · intro _
        simp

theorem upsertAchievement_frame_witness :
    (upsertAchievement sampleDb2 AchievementId.quickdraw ("Quickdraw")
        TierLevel.gold 48 ("t9")).achievements AchievementId.quickdraw =
      some { sampleRecord with
             tier := TierLevel.gold
             targetCount := 48
             updatedAt := "t9" } :=
  (upsertAchievement_frame sampleDb2 AchievementId.quickdraw ("Quickdraw")
    TierLevel.gold 48 ("t9")).2.2.2.1 sampleRecord rfl

/-! ## Scenario theorems about `execute` -/

/-- C4 (counterexample): in the resumed-run scenario — target 10, prior
completions 1–3, the task for sequence number 6 failing — the single error
entry is labelled `Operation 3` (the 1-based position of the task in the
pending list of this run), so it does not begin with `Operation 6:` as the claim
states. -/
theorem execute_error_label_cex :
    ((execute sampleDb AchievementId.pullShark ("Pull Shark") TierLevel.bronze
        10 3 OperationType.create_pr sampleEnv noFaults).toOption.map
      fun p => p.2.errors) = some ["Operation 3: boom"] ∧
    strStartsWith ("Operation 3: boom") ("Operation 6:") = false := by
  exact ⟨by decide, by decide⟩

/-- C4 (amended): in that scenario `execute()` returns
`completedOperations = 9` and `success = false` as claimed, but the single
error entry begins with `Operation 3:` — `Operation` followed by the
1-based position of the failing task in the pending list (sequence number 6 sits at
position 3 of `[4,5,6,7,8,9,10]`), not by its sequence number. -/
theorem execute_error_label :
    ((execute sampleDb AchievementId.pullShark ("Pull Shark") TierLevel.bronze
        10 3 OperationType.create_pr sampleEnv noFaults).toOption.map
      fun p => (p.2.completedOperations, p.2.success, p.2.errors)) =
        some (9, false, ["Operation 3: boom"]) ∧
    strStartsWith ("Operation 3: boom") ("Operation 3:") = true ∧
    (executePendingOps sampleDb AchievementId.pullShark ("Pull Shark")
        TierLevel.bronze 10 ("t1")).indexOf 6 + 1 = 3 := by
  exact ⟨by decide, by decide, by decide⟩

/-- C3 (counterexample): completed operations recorded in the store can
outnumber the target (here numbers 1–3 are completed and the new target is
2, as after a tier downgrade); `execute()` then reports success with
`completedOperations = 3 ≠ 2 = totalOperations`, so the persisted status is
`completed` although the completed sum does not *equal* the target — the
source compares with `>=`, not `==`. -/
theorem execute_aggregation_cex :
    ((execute sampleDb AchievementId.pullShark ("Pull Shark")
        TierLevel.default 2 3 OperationType.create_pr sampleEnvEmpty
        noFaults).toOption.map
      fun p => (p.2.success, p.2.completedOperations, p.2.totalOperations)) =
        some (true, 3, 2) ∧ (3 ≠ 2) := by
  exact ⟨by decide, by decide⟩

theorem upsertAchievement_self_isSome (db : DatabaseData)
    (id : AchievementId) (name : String) (tier : TierLevel) (tc : Nat)
    (now : String) :
    ((upsertAchievement db id name tier tc now).achievements id).isSome =
      true := by
  unfold upsertAchievement
  cases db.achievements id <;> simp

theorem updateAchievementStatus_isSome (db : DatabaseData)
    (id : AchievementId) (st : OperationStatus) (now : String)
    (j : AchievementId) :
    ((updateAchievementStatus db id st now).achievements j).isSome =
      (db.achievements j).isSome := by
  unfold updateAchievementStatus
  cases hd : db.achievements id with
  | none => rfl
  | some r =>
      by_cases hj : j = id
      · subst hj
        simp [hd]
      · simp [hj]

theorem updateAchievementStatus_self_status (db : DatabaseData)
    (id : AchievementId) (st : OperationStatus) (now : String)
    (h : (db.achievements id).isSome = true) :
    ((updateAchievementStatus db id st now).achievements id).map
      AchievementRecord.status = some st := by
  unfold updateAchievementStatus
  cases hd : db.achievements id with
  | none =>
      rw [hd] at h
      simp at h
  | some r => simp

theorem resetStuck_achievements (db : DatabaseData) (k : AchievementId)
    (now : String) :
    (resetStuckOperations db k now).1.achievements = db.achievements := rfl

theorem executeSetupDb_isSome (db : DatabaseData) (k : AchievementId)
    (name : String) (tier : TierLevel) (T : Nat) (now : String) :
    ((executeSetupDb db k name tier T now).achievements k).isSome = true := by
  unfold executeSetupDb
  rw [resetStuck_achievements, updateAchievementStatus_isSome]
  exact upsertAchievement_self_isSome db k name tier T now

/-- C7 (counterexample): a storage error thrown by the initial
`upsertAchievement` call — which sits *before* the `try` block of
`execute()` (line 101 versus line 126) — propagates to the caller instead of
being converted into a failed structured result. -/
theorem execute_totality_cex :
    execute sampleDb AchievementId.pullShark ("Pull Shark") TierLevel.bronze
        10 3 OperationType.create_pr sampleEnv { upsertErr := some errDisk } =
      Except.error errDisk := rfl

/-- C7 (amended): once the four store calls of the setup phase (upsert,
status update, stuck-operation reset, completed-set computation — the calls
*before* the `try` block) return normally, `execute()` never propagates an
error: it returns a structured result, and a throw inside the `try` block is
caught, marks the run failed, and surfaces the wrapped message in the error
list of a failed result.  Errors thrown by the setup calls themselves
propagate (see the counterexample), contrary to the claim. -/
theorem execute_totality (db : DatabaseData) (k : AchievementId)
    (name : String) (tier : TierLevel) (T : Nat) (concurrency : Nat)
    (opType : OperationType) (env : ExecEnv) (faults : Faults)
    (h1 : faults.upsertErr = none) (h2 : faults.statusErr = none)
    (h3 : faults.resetErr = none) (h4 : faults.completedErr = none) :
    (∃ p, execute db k name tier T concurrency opType env faults = Except.ok p) ∧
    (∀ e, faults.bodyErr = some e →
      ∃ dbf res, execute db k name tier T concurrency opType env faults =
          Except.ok (dbf, res) ∧
        res.success = false ∧
        res.errors = [(wrapError e).message] ∧
        res.completedOperations =
          (executeCompletedNums db k name tier T env.now).length ∧
        res.totalOperations = T ∧
        res.prNumbers = [] ∧
        (dbf.achievements k).map AchievementRecord.status =
          some OperationStatus.failed) := by
  simp only [execute, h1, h2, h3, h4]
  cases hb : faults.bodyErr with
  | none =>
      refine ⟨⟨_, rfl⟩, ?_⟩
      intro e he
      cases he
  | some e0 =>
      refine ⟨⟨_, rfl⟩, ?_⟩
      intro e he
      injection he with he0
      subst he0
      refine ⟨_, _, rfl, rfl, rfl, rfl, rfl, rfl, ?_⟩
      exact updateAchievementStatus_self_status _ k OperationStatus.failed
        env.now (executeSetupDb_isSome db k name tier T env.now)

theorem execute_totality_witness :
    ∃ dbf res,
      execute sampleDb AchievementId.pullShark ("Pull Shark")
          TierLevel.bronze 10 3 OperationType.create_pr sampleEnv
          { bodyErr := some errBoom } = Except.ok (dbf, res) ∧
      res.success = false ∧
      res.errors = [(wrapError errBoom).message] ∧
      res.completedOperations =
        (executeCompletedNums sampleDb AchievementId.pullShark ("Pull Shark")
          TierLevel.bronze 10 ("t1")).length ∧
      res.totalOperations = 10 ∧
      res.prNumbers = [] ∧
      (dbf.achievements AchievementId.pullShark).map
        AchievementRecord.status = some OperationStatus.failed :=
  (execute_totality sampleDb AchievementId.pullShark ("Pull Shark")
    TierLevel.bronze 10 3 OperationType.create_pr sampleEnv
    { bodyErr := some errBoom } rfl rfl rfl rfl).2 errBoom rfl

/-! ## Resume correctness and stuck-operation reset -/

theorem mem_setAdd (s : List Nat) (m n : Nat) :
    n ∈ setAdd s m ↔ n ∈ s ∨ n = m := by
  unfold setAdd
  by_cases h : m ∈ s
  · rw [if_pos h]
    constructor
    · exact Or.inl
    · rintro (hn | rfl)
      · exact hn
      · exact h
  · rw [if_neg h]
    simp [List.mem_append]

theorem mem_completedFold (k : AchievementId) (n : Nat) :
    ∀ (ops : List OperationRecord) (acc : List Nat),
      (n ∈ ops.foldl
        (fun acc op =>
          if op.achievementId = k ∧ op.status = OperationStatus.completed then
            setAdd acc op.operationNumber
          else acc) acc ↔
      n ∈ acc ∨ ∃ op ∈ ops, op.achievementId = k ∧
        op.status = OperationStatus.completed ∧ op.operationNumber = n)
  | [], acc => by simp
  | op :: rest, acc => by
      rw [List.foldl_cons, mem_completedFold k n rest]
      by_cases h : op.achievementId = k ∧ op.status = OperationStatus.completed
      · rw [if_pos h, mem_setAdd]
        constructor
        · rintro ((hn | rfl) | ⟨op2, hm, hp⟩)
          · exact Or.inl hn
          · exact Or.inr ⟨op, List.mem_cons_self op rest, h.1, h.2, rfl⟩
          · exact Or.inr ⟨op2, List.mem_cons_of_mem op hm, hp⟩
        · rintro (hn | ⟨op2, hm, hp⟩)
          · exact Or.inl (Or.inl hn)
          · rcases List.mem_cons.mp hm with rfl | hm2
            · exact Or.inl (Or.inr hp.2.2.symm)
            · exact Or.inr ⟨op2, hm2, hp⟩
      · rw [if_neg h]
        constructor
        · rintro (hn | ⟨op2, hm, hp⟩)
          · exact Or.inl hn
          · exact Or.inr ⟨op2, List.mem_cons_of_mem op hm, hp⟩
        · rintro (hn | ⟨op2, hm, hp⟩)
          · exact Or.inl hn
          · rcases List.mem_cons.mp hm with rfl | hm2
            · exact absurd ⟨hp.1, hp.2.1⟩ h
            · exact Or.inr ⟨op2, hm2, hp⟩

theorem mem_getCompletedOperationNumbers (db : DatabaseData)
    (k : AchievementId) (n : Nat) :
    n ∈ getCompletedOperationNumbers db k ↔
      ∃ op ∈ db.operations, op.achievementId = k ∧
        op.status = OperationStatus.completed ∧ op.operationNumber = n := by
  unfold getCompletedOperationNumbers
  rw [mem_completedFold]
  simp

theorem resetStuckList_cons (k : AchievementId) (now : String)
    (op : OperationRecord) (rest : List OperationRecord) :
    resetStuckList k now (op :: rest) =
      if op.achievementId = k ∧ op.status = OperationStatus.in_progress then
        ({ op with status := OperationStatus.pending, updatedAt := now }
           :: (resetStuckList k now rest).1, (resetStuckList k now rest).2 + 1)
      else
        (op :: (resetStuckList k now rest).1,
         (resetStuckList k now rest).2) := by
  rw [resetStuckList]

theorem completedFold_reset (k : AchievementId) (now : String) :
    ∀ (ops : List OperationRecord) (acc : List Nat),
      (resetStuckList k now ops).1.foldl
        (fun acc op =>
          if op.achievementId = k ∧ op.status = OperationStatus.completed then
            setAdd acc op.operationNumber
          else acc) acc =
      ops.foldl
        (fun acc op =>
          if op.achievementId = k ∧ op.status = OperationStatus.completed then
            setAdd acc op.operationNumber
          else acc) acc
  | [], _ => rfl
  | op :: rest, acc => by
      by_cases h : op.achievementId = k ∧
        op.status = OperationStatus.in_progress
      · rw [resetStuckList_cons, if_pos h]
        rw [List.foldl_cons, List.foldl_cons]
        have h1 : ¬(({ op with status := OperationStatus.pending, updatedAt := now } : OperationRecord).achievementId = k ∧ ({ op with status := OperationStatus.pending, updatedAt := now } : OperationRecord).status = OperationStatus.completed) := by
          simp
        have h2 : ¬(op.achievementId = k ∧
            op.status = OperationStatus.completed) := by
          rintro ⟨_, hc⟩
          rw [h.2] at hc
          cases hc
        rw [if_neg h1, if_neg h2]
        exact completedFold_reset k now rest acc
      · rw [resetStuckList_cons, if_neg h]
        rw [List.foldl_cons, List.foldl_cons]
        exact completedFold_reset k now rest _

theorem upsertAchievement_operations (db : DatabaseData) (id : AchievementId)
    (name : String) (tier : TierLevel) (tc : Nat) (now : String) :
    (upsertAchievement db id name tier tc now).operations = db.operations := by
  unfold upsertAchievement
  cases db.achievements id <;> rfl

theorem updateAchievementStatus_operations (db : DatabaseData)
    (id : AchievementId) (st : OperationStatus) (now : String) :
    (updateAchievementStatus db id st now).operations = db.operations := by
  unfold updateAchievementStatus
  cases db.achievements id <;> rfl

theorem getCompleted_congr (db1 db2 : DatabaseData) (k : AchievementId)
    (h : db1.operations = db2.operations) :
    getCompletedOperationNumbers db1 k = getCompletedOperationNumbers db2 k := by
  unfold getCompletedOperationNumbers
  rw [h]

theorem executeSetupDb_operations (db : DatabaseData) (k : AchievementId)
    (name : String) (tier : TierLevel) (T : Nat) (now : String) :
    (executeSetupDb db k name tier T now).operations =
      (resetStuckList k now db.operations).1 := by
  show (resetStuckList k now
    (updateAchievementStatus (upsertAchievement db k name tier T now) k
      OperationStatus.in_progress now).operations).1 = _
  rw [updateAchievementStatus_operations, upsertAchievement_operations]

theorem executeCompletedNums_eq (db : DatabaseData) (k : AchievementId)
    (name : String) (tier : TierLevel) (T : Nat) (now : String) :
    executeCompletedNums db k name tier T now =
      getCompletedOperationNumbers db k := by
  unfold executeCompletedNums
  rw [getCompleted_congr (executeSetupDb db k name tier T now)
    ⟨db.achievements, (resetStuckList k now db.operations).1,
      db.nextOperationId⟩ k (executeSetupDb_operations db k name tier T now)]
  unfold getCompletedOperationNumbers
  exact completedFold_reset k now db.operations []

/-- C1: the pending list `execute()` builds contains a sequence number `i`
exactly when `1 ≤ i ≤ T` and no completed Operation record for `(k, i)`
exists in the store at call time; in particular no completed sequence number
is ever re-attempted. -/
theorem execute_resume_correctness (db : DatabaseData) (k : AchievementId)
    (name : String) (tier : TierLevel) (T : Nat) (now : String) (i : Nat) :
    (i ∈ executePendingOps db k name tier T now ↔
      1 ≤ i ∧ i ≤ T ∧
        ¬ ∃ op ∈ db.operations, op.achievementId = k ∧
          op.status = OperationStatus.completed ∧ op.operationNumber = i) ∧
    (i ∈ getCompletedOperationNumbers db k →
      i ∉ executePendingOps db k name tier T now) := by
  have hmem : i ∈ executePendingOps db k name tier T now ↔
      (1 ≤ i ∧ i ≤ T) ∧ i ∉ getCompletedOperationNumbers db k := by
    unfold executePendingOps pendingOpsOf
    rw [executeCompletedNums_eq, List.mem_filter]
    simp only [decide_eq_true_eq, List.mem_range'_1]
    constructor
    · rintro ⟨⟨hi1, hi2⟩, hni⟩
      exact ⟨⟨hi1, by omega⟩, hni⟩
    · rintro ⟨⟨hi1, hi2⟩, hni⟩
      exact ⟨⟨hi1, by omega⟩, hni⟩
  constructor
  · rw [hmem]
    constructor
    · rintro ⟨⟨h1, h2⟩, h3⟩
      exact ⟨h1, h2, fun hex =>
        h3 ((mem_getCompletedOperationNumbers db k i).mpr hex)⟩
    · rintro ⟨h1, h2, h3⟩
      exact ⟨⟨h1, h2⟩, fun hS =>
        h3 ((mem_getCompletedOperationNumbers db k i).mp hS)⟩
  · intro hS hP
    exact ((hmem.mp hP).2) hS

theorem execute_resume_correctness_witness :
    2 ∉ executePendingOps sampleDb AchievementId.pullShark ("Pull Shark")
      TierLevel.bronze 10 ("t1") :=
  (execute_resume_correctness sampleDb AchievementId.pullShark ("Pull Shark")
    TierLevel.bronze 10 ("t1") 2).2 (by decide)

theorem resetStuckList_map (k : AchievementId) (now : String) :
    ∀ ops : List OperationRecord,
      (resetStuckList k now ops).1 = ops.map (resetStuckOne k now)
  | [] => rfl
  | op :: rest => by
      rw [resetStuckList_cons]
      by_cases h : op.achievementId = k ∧
        op.status = OperationStatus.in_progress
      · rw [if_pos h]
        dsimp only
        rw [List.map_cons, resetStuckList_map k now rest]
        congr 1
        unfold resetStuckOne
        rw [if_pos h]
      · rw [if_neg h]
        dsimp only
        rw [List.map_cons, resetStuckList_map k now rest]
        congr 1
        unfold resetStuckOne
        rw [if_neg h]

theorem resetStuckList_count (k : AchievementId) (now : String) :
    ∀ ops : List OperationRecord,
      (resetStuckList k now ops).2 = ops.countP
        (fun op => decide (op.achievementId = k ∧
          op.status = OperationStatus.in_progress))
  | [] => rfl
  | op :: rest => by
      rw [resetStuckList_cons, List.countP_cons]
      by_cases h : op.achievementId = k ∧
        op.status = OperationStatus.in_progress
      · rw [if_pos h]
        dsimp only
        rw [resetStuckList_count k now rest]
        simp [h]
      · rw [if_neg h]
        dsimp only
        rw [resetStuckList_count k now rest]
        simp [h]

/-- C2: `resetStuckOperations(k)` maps every Operation record through a
per-record action that flips exactly the records of kind `k` in status
`in_progress` to `pending` (stamping `updatedAt`), leaves every other record
unchanged, returns the number of records so flipped, and does not touch the
achievements map or the id counter; `execute()` applies it during its setup
phase, before the completed-number set — and hence the pending-work set — is
computed. -/
theorem resetStuckOperations_spec (db : DatabaseData) (k : AchievementId)
    (now : String) (name : String) (tier : TierLevel) (T : Nat) :
    (resetStuckOperations db k now).1.operations =
      db.operations.map (resetStuckOne k now) ∧
    (resetStuckOperations db k now).2 =
      db.operations.countP
        (fun op => decide (op.achievementId = k ∧
          op.status = OperationStatus.in_progress)) ∧
    (∀ op : OperationRecord, op.achievementId = k →
      op.status = OperationStatus.in_progress →
      resetStuckOne k now op =
        { op with status := OperationStatus.pending, updatedAt := now }) ∧
    (∀ op : OperationRecord,
      ¬(op.achievementId = k ∧ op.status = OperationStatus.in_progress) →
      resetStuckOne k now op = op) ∧
    (resetStuckOperations db k now).1.achievements = db.achievements ∧
    (resetStuckOperations db k now).1.nextOperationId = db.nextOperationId ∧
    (executeSetupDb db k name tier T now).operations =
      db.operations.map (resetStuckOne k now) ∧
    executeCompletedNums db k name tier T now =
      getCompletedOperationNumbers (executeSetupDb db k name tier T now) k := by
  refine ⟨resetStuckList_map k now db.operations,
    resetStuckList_count k now db.operations, ?_, ?_, rfl, rfl, ?_, rfl⟩
  · intro op h1 h2
    unfold resetStuckOne
    rw [if_pos ⟨h1, h2⟩]
  · intro op h
    unfold resetStuckOne
    rw [if_neg h]
  · rw [executeSetupDb_operations, resetStuckList_map k now db.operations]

theorem resetStuckOperations_spec_witness :
    resetStuckOne AchievementId.quickdraw ("t9") sampleStuckOp =
      { sampleStuckOp with
        status := OperationStatus.pending
        updatedAt := "t9" } :=
  (resetStuckOperations_spec sampleDb2 AchievementId.quickdraw ("t9")
    ("Quickdraw") TierLevel.gold 48).2.2.1 sampleStuckOp rfl rfl

/-! ## Concurrency runner ordering -/

theorem taskEntry_index (outcomes : List (Except E A)) (i : Nat) :
    (taskEntry outcomes i).index = i := by
  unfold taskEntry
  cases outcomes.get? i with
  | none => rfl
  | some x => cases x <;> rfl

theorem insertByIndex_cons (x y : TaskResult E A)
    (ys : List (TaskResult E A)) :
    insertByIndex x (y :: ys) =
      if x.index ≤ y.index then x :: y :: ys else y :: insertByIndex x ys := by
  rw [insertByIndex]

theorem insertByIndex_perm (x : TaskResult E A) :
    ∀ l : List (TaskResult E A), (insertByIndex x l).Perm (x :: l)
  | [] => List.Perm.refl _
  | y :: ys => by
      rw [insertByIndex_cons]
      by_cases h : x.index ≤ y.index
      · rw [if_pos h]
      · rw [if_neg h]
        exact ((insertByIndex_perm x ys).cons y).trans (List.Perm.swap x y ys)

theorem sortByIndex_perm :
    ∀ l : List (TaskResult E A), (sortByIndex l).Perm l
  | [] => List.Perm.refl _
  | x :: xs =>
      (insertByIndex_perm x (sortByIndex xs)).trans
        ((sortByIndex_perm xs).cons x)

theorem insertByIndex_sorted (x : TaskResult E A) :
    ∀ l : List (TaskResult E A),
      l.Pairwise (fun a b => a.index ≤ b.index) →
      (insertByIndex x l).Pairwise (fun a b => a.index ≤ b.index)
  | [], _ => by simp [insertByIndex]
  | y :: ys, hp => by
      rw [insertByIndex_cons]
      by_cases h : x.index ≤ y.index
      · rw [if_pos h]
        refine List.Pairwise.cons ?_ hp
        intro z hz
        rcases List.mem_cons.mp hz with rfl | hz2
        · exact h
        · exact le_trans h (List.rel_of_pairwise_cons hp hz2)
      · rw [if_neg h]
        refine List.Pairwise.cons ?_ (insertByIndex_sorted x ys hp.of_cons)
        intro z hz
        rcases List.mem_cons.mp ((insertByIndex_perm x ys).mem_iff.mp hz) with
          rfl | hz4
        · omega
        · exact List.rel_of_pairwise_cons hp hz4

theorem sortByIndex_sorted :
    ∀ l : List (TaskResult E A),
      (sortByIndex l).Pairwise (fun a b => a.index ≤ b.index)
  | [] => List.Pairwise.nil
  | x :: xs => insertByIndex_sorted x (sortByIndex xs) (sortByIndex_sorted xs)

/-- C6 (counterexample): with concurrency limit 0 and three submitted tasks
whose completion order is a permutation of the submission indices,
`Array(Math.min(0, 3))` (timing.ts line 293) spawns zero workers, so
`runWithConcurrency` returns an empty array — not one entry per submission
index as the claim states for *every* concurrency limit. -/
theorem runWithConcurrency_ordering_cex :
    runWithConcurrency sampleOutcomes 0 sampleOrder = [] ∧
    sampleOutcomes.length = 3 ∧
    (runWithConcurrency sampleOutcomes 0 sampleOrder).length ≠
      sampleOutcomes.length ∧
    sampleOrder.Perm (List.range sampleOutcomes.length) :=
  ⟨rfl, rfl, by decide, by decide⟩

/-- C6 (amended): for `N` submitted tasks, any concurrency limit of at least
one, and any completion order (any permutation of the submission indices
`0..N-1`), `runWithConcurrency` returns exactly `N` entries, one per
submission index, sorted in increasing index order — so
`result[i].index = i` — regardless of the completion order.  A limit of 0
spawns `Math.min(0, N) = 0` workers and returns the empty array instead
(see the counterexample), so the claim fails for that limit. -/
theorem runWithConcurrency_ordering (outcomes : List (Except E A))
    (concurrency : Nat) (order : List Nat) (hc : 1 ≤ concurrency)
    (h : order.Perm (List.range outcomes.length)) :
    (runWithConcurrency outcomes concurrency order).length =
      outcomes.length ∧
    (runWithConcurrency outcomes concurrency order).map TaskResult.index =
      List.range outcomes.length := by
  by_cases hN : outcomes.length = 0
  · rw [runWithConcurrency, if_pos (by omega)]
    simp [hN]
  · rw [runWithConcurrency, if_neg (by omega)]
    have hmapidx : (order.map (taskEntry outcomes)).map TaskResult.index =
        order := by
      rw [List.map_map]
      have hcomp : (TaskResult.index ∘ taskEntry outcomes) = id :=
        funext (taskEntry_index outcomes)
      rw [hcomp, List.map_id]
    have hperm : ((sortByIndex (order.map (taskEntry outcomes))).map
        TaskResult.index).Perm (List.range outcomes.length) := by
      have h1 : (sortByIndex (order.map (taskEntry outcomes))).Perm
          (order.map (taskEntry outcomes)) := sortByIndex_perm _
      have h2 := h1.map TaskResult.index
      rw [hmapidx] at h2
      exact h2.trans h
    have hsorted : ((sortByIndex (order.map (taskEntry outcomes))).map
        TaskResult.index).Pairwise (fun a b => a ≤ b) :=
      List.Pairwise.map TaskResult.index (fun a b hab => hab)
        (sortByIndex_sorted (order.map (taskEntry outcomes)))
    have hrange : (List.range outcomes.length).Pairwise
        (fun a b => a ≤ b) :=
      (List.pairwise_lt_range outcomes.length).imp (fun hab => le_of_lt hab)
    have heq : (sortByIndex (order.map (taskEntry outcomes))).map
        TaskResult.index = List.range outcomes.length :=
      List.eq_of_perm_of_sorted hperm hsorted hrange
    refine ⟨?_, heq⟩
    have hlen := congrArg List.length heq
    simpa using hlen

theorem runWithConcurrency_ordering_witness :
    (runWithConcurrency sampleOutcomes 2 sampleOrder).length = 3 ∧
    (runWithConcurrency sampleOutcomes 2 sampleOrder).map TaskResult.index =
      List.range 3 :=
  runWithConcurrency_ordering sampleOutcomes 2 sampleOrder (by decide)
    (by decide)

/-! ## Retry / backoff -/

theorem retryLoop_calls (f : Nat → Except E A) (sr : E → Bool) (b : ℚ)
    (j : Nat → ℚ) :
    ∀ (remaining attempt : Nat),
      (retryLoop f sr b j remaining attempt).calls ≤ remaining + 1
  | 0, attempt => by
      rw [retryLoop]
      cases f attempt <;> simp
  | r + 1, attempt => by
      rw [retryLoop]
      cases hf : f attempt with
      | ok a => simp
      | error e =>
          dsimp only
          by_cases hsr : sr e = true
          · rw [if_pos hsr]
            dsimp only
            have := retryLoop_calls f sr b j r (attempt + 1)
            omega
          · rw [if_neg hsr]
            simp

theorem retryLoop_calls_pos (f : Nat → Except E A) (sr : E → Bool) (b : ℚ)
    (j : Nat → ℚ) :
    ∀ (remaining attempt : Nat),
      1 ≤ (retryLoop f sr b j remaining attempt).calls
  | 0, attempt => by
      rw [retryLoop]
      cases f attempt <;> simp
  | r + 1, attempt => by
      rw [retryLoop]
      cases hf : f attempt with
      | ok a => simp
      | error e =>
          dsimp only
          by_cases hsr : sr e = true
          · rw [if_pos hsr]
            dsimp only
            omega
          · rw [if_neg hsr]

theorem retryLoop_ok_iff (f : Nat → Except E A) (sr : E → Bool) (b : ℚ)
    (j : Nat → ℚ) (a : A) :
    ∀ (remaining attempt : Nat),
      ((retryLoop f sr b j remaining attempt).outcome = Except.ok a ↔
        ∃ kk, attempt ≤ kk ∧ kk ≤ attempt + remaining ∧
          f kk = Except.ok a ∧
          ∀ i, attempt ≤ i → i < kk →
            ∃ e, f i = Except.error e ∧ sr e = true)
  | 0, attempt => by
      rw [retryLoop]
      cases hf : f attempt with
      | ok a0 =>
          dsimp only
          constructor
          · intro h
            injection h with h
            subst h
            exact ⟨attempt, le_refl _, by omega, hf,
              fun i h1 h2 => False.elim (by omega)⟩
          · rintro ⟨kk, h1, h2, hok, _⟩
            have hk : kk = attempt := by omega
            subst hk
            rw [hf] at hok
            exact hok
      | error e0 =>
          dsimp only
          constructor
          · intro h
            cases h
          · rintro ⟨kk, h1, h2, hok, _⟩
            have hk : kk = attempt := by omega
            subst hk
            rw [hf] at hok
            cases hok
  | r + 1, attempt => by
      rw [retryLoop]
      cases hf : f attempt with
      | ok a0 =>
          dsimp only
          constructor
          · intro h
            injection h with h
            subst h
            exact ⟨attempt, le_refl _, by omega, hf,
              fun i h1 h2 => False.elim (by omega)⟩
          · rintro ⟨kk, h1, h2, hok, hall⟩
            rcases Nat.eq_or_lt_of_le h1 with hk | hk
            · rw [← hk] at hok
              rw [hf] at hok
              exact hok
            · obtain ⟨e, hfi, _⟩ := hall attempt (le_refl _) hk
              rw [hf] at hfi
              cases hfi
      | error e0 =>
          dsimp only
          by_cases hsr : sr e0 = true
          · rw [if_pos hsr]
            dsimp only
            rw [retryLoop_ok_iff f sr b j a r (attempt + 1)]
            constructor
            · rintro ⟨kk, h1, h2, hok, hall⟩
              refine ⟨kk, by omega, by omega, hok, ?_⟩
              intro i hi1 hi2
              rcases Nat.eq_or_lt_of_le hi1 with hi | hi
              · rw [← hi]
                exact ⟨e0, hf, hsr⟩
              · exact hall i hi hi2
            · rintro ⟨kk, h1, h2, hok, hall⟩
              have hkk : attempt + 1 ≤ kk := by
                rcases Nat.eq_or_lt_of_le h1 with hk | hk
                · exfalso
                  rw [← hk] at hok
                  rw [hf] at hok
                  cases hok
                · omega
              refine ⟨kk, hkk, by omega, hok, ?_⟩
              intro i hi1 hi2
              exact hall i (by omega) hi2
          · rw [if_neg hsr]
            dsimp only
            constructor
            · intro h
              cases h
            · rintro ⟨kk, h1, h2, hok, hall⟩
              rcases Nat.eq_or_lt_of_le h1 with hk | hk
              · exfalso
                rw [← hk] at hok
                rw [hf] at hok
                cases hok
              · obtain ⟨e2, hfi, hsr2⟩ := hall attempt (le_refl _) hk
                rw [hf] at hfi
                injection hfi with he2
                subst he2
                exact absurd hsr2 hsr

theorem retryLoop_error_iff (f : Nat → Except E A) (sr : E → Bool) (b : ℚ)
    (j : Nat → ℚ) (e : E) :
    ∀ (remaining attempt : Nat),
      ((retryLoop f sr b j remaining attempt).outcome = Except.error e ↔
        ∃ kk, attempt ≤ kk ∧ kk ≤ attempt + remaining ∧
          f kk = Except.error e ∧
          (kk = attempt + remaining ∨ sr e = false) ∧
          ∀ i, attempt ≤ i → i < kk →
            ∃ e2, f i = Except.error e2 ∧ sr e2 = true)
  | 0, attempt => by
      rw [retryLoop]
      cases hf : f attempt with
      | ok a0 =>
          dsimp only
          constructor
          · intro h
            cases h
          · rintro ⟨kk, h1, h2, herr, _, _⟩
            have hk : kk = attempt := by omega
            subst hk
            rw [hf] at herr
            cases herr
      | error e0 =>
          dsimp only
          constructor
          · intro h
            injection h with h
            subst h
            exact ⟨attempt, le_refl _, by omega, hf, Or.inl (by omega),
              fun i h1 h2 => False.elim (by omega)⟩
          · rintro ⟨kk, h1, h2, herr, _, _⟩
            have hk : kk = attempt := by omega
            subst hk
            rw [hf] at herr
            exact herr
  | r + 1, attempt => by
      rw [retryLoop]
      cases hf : f attempt with
      | ok a0 =>
          dsimp only
          constructor
          · intro h
            cases h
          · rintro ⟨kk, h1, h2, herr, hd, hall⟩
            rcases Nat.eq_or_lt_of_le h1 with hk | hk
            · rw [← hk] at herr
              rw [hf] at herr
              cases herr
            · obtain ⟨e2, hfi, _⟩ := hall attempt (le_refl _) hk
              rw [hf] at hfi
              cases hfi
      | error e0 =>
          dsimp only
          by_cases hsr : sr e0 = true
          · rw [if_pos hsr]
            dsimp only
            rw [retryLoop_error_iff f sr b j e r (attempt + 1)]
            constructor
            · rintro ⟨kk, h1, h2, herr, hd, hall⟩
              refine ⟨kk, by omega, by omega, herr, ?_, ?_⟩
              · rcases hd with hd | hd
                · exact Or.inl (by omega)
                · exact Or.inr hd
              · intro i hi1 hi2
                rcases Nat.eq_or_lt_of_le hi1 with hi | hi
                · rw [← hi]
                  exact ⟨e0, hf, hsr⟩
                · exact hall i hi hi2
            · rintro ⟨kk, h1, h2, herr, hd, hall⟩
              have hkk : attempt + 1 ≤ kk := by
                rcases Nat.eq_or_lt_of_le h1 with hk | hk
                · exfalso
                  rw [← hk] at herr
                  rw [hf] at herr
                  injection herr with he
                  subst he
                  rcases hd with hd | hd
                  · omega
                  · rw [hd] at hsr
                    cases hsr
                · omega
              refine ⟨kk, hkk, by omega, herr, ?_, ?_⟩
              · rcases hd with hd | hd
                · exact Or.inl (by omega)
                · exact Or.inr hd
              · intro i hi1 hi2
                exact hall i (by omega) hi2
          · rw [if_neg hsr]
            dsimp only
            constructor
            · intro h
              injection h with h
              subst h
              refine ⟨attempt, le_refl _, by omega, hf, ?_,
                fun i h1 h2 => False.elim (by omega)⟩
              right
              simpa using hsr
            · rintro ⟨kk, h1, h2, herr, hd, hall⟩
              rcases Nat.eq_or_lt_of_le h1 with hk | hk
              · rw [← hk] at herr
                rw [hf] at herr
                injection herr with he
                subst he
                rfl
              · obtain ⟨e2, hfi, hsr2⟩ := hall attempt (le_refl _) hk
                rw [hf] at hfi
                injection hfi with he2
                subst he2
                exact absurd hsr2 hsr

theorem retryLoop_delays (f : Nat → Except E A) (sr : E → Bool) (b : ℚ)
    (j : Nat → ℚ) :
    ∀ (remaining attempt : Nat),
      (retryLoop f sr b j remaining attempt).delays =
        (List.range' attempt
          ((retryLoop f sr b j remaining attempt).calls - 1)).map
          (fun i => getBackoffDelay i b (j i))
  | 0, attempt => by
      rw [retryLoop]
      cases f attempt <;> simp
  | r + 1, attempt => by
      rw [retryLoop]
      cases hf : f attempt with
      | ok a => simp
      | error e =>
          dsimp only
          by_cases hsr : sr e = true
          · rw [if_pos hsr]
            dsimp only
            have hpos := retryLoop_calls_pos f sr b j r (attempt + 1)
            have hc : (retryLoop f sr b j r (attempt + 1)).calls + 1 - 1 =
                ((retryLoop f sr b j r (attempt + 1)).calls - 1) + 1 := by
              omega
            rw [hc, List.range'_succ, List.map_cons,
              retryLoop_delays f sr b j r (attempt + 1)]
          · rw [if_neg hsr]
            simp

/-- C5: `retry(fn, opts)` returns the first successful result of `fn`; a
failure is rethrown unchanged exactly when the attempt index has reached
`maxRetries` or `shouldRetry` rejects the error, every earlier attempt
having failed retryably; `fn` is invoked at most `maxRetries + 1` times; and
before retry `i + 1` the loop waits `min(baseDelay * 2^i + jitter, 60000)`
milliseconds, where the jitter `Math.random() * 1000` lies in `[0, 1000)`. -/
theorem retry_spec (f : Nat → Except E A) (sr : E → Bool) (m : Nat) (b : ℚ)
    (j : Nat → ℚ) :
    (retryRun f sr m b j).calls ≤ m + 1 ∧
    (∀ a, (retryRun f sr m b j).outcome = Except.ok a ↔
      ∃ kk, kk ≤ m ∧ f kk = Except.ok a ∧
        ∀ i, i < kk → ∃ e, f i = Except.error e ∧ sr e = true) ∧
    (∀ e, (retryRun f sr m b j).outcome = Except.error e ↔
      ∃ kk, kk ≤ m ∧ f kk = Except.error e ∧ (kk = m ∨ sr e = false) ∧
        ∀ i, i < kk → ∃ e2, f i = Except.error e2 ∧ sr e2 = true) ∧
    (retryRun f sr m b j).delays =
      (List.range ((retryRun f sr m b j).calls - 1)).map
        (fun i => min (b * 2 ^ i + j i) 60000) ∧
    (∀ u : ℚ, 0 ≤ u → u < 1 → 0 ≤ jitterOf u ∧ jitterOf u < 1000) := by
  refine ⟨retryLoop_calls f sr b j m 0, ?_, ?_, ?_, ?_⟩
  · intro a
    rw [retryRun, retryLoop_ok_iff]
    constructor
    · rintro ⟨kk, _, h2, hok, hall⟩
      exact ⟨kk, by omega, hok, fun i hi => hall i (Nat.zero_le i) hi⟩
    · rintro ⟨kk, h2, hok, hall⟩
      exact ⟨kk, Nat.zero_le kk, by omega, hok, fun i _ hi => hall i hi⟩
  · intro e
    rw [retryRun, retryLoop_error_iff]
    constructor
    · rintro ⟨kk, _, h2, herr, hd, hall⟩
      refine ⟨kk, by omega, herr, ?_, fun i hi => hall i (Nat.zero_le i) hi⟩
      rcases hd with hd | hd
      · exact Or.inl (by omega)
      · exact Or.inr hd
    · rintro ⟨kk, h2, herr, hd, hall⟩
      refine ⟨kk, Nat.zero_le kk, by omega, herr, ?_,
        fun i _ hi => hall i hi⟩
      rcases hd with hd | hd
      · exact Or.inl (by omega)
      · exact Or.inr hd
  · rw [retryRun, retryLoop_delays, List.range_eq_range']
    have hfun : (fun i => getBackoffDelay i b (j i)) =
        (fun i => min (b * 2 ^ i + j i) 60000) := funext fun i => rfl
    rw [hfun]
  · intro u h0 h1
    unfold jitterOf
    constructor
    · exact mul_nonneg h0 (by norm_num)
    · have h2 := mul_lt_mul_of_pos_right h1 (show (0:ℚ) < 1000 by norm_num)
      simpa using h2

theorem retry_spec_witness :
    (retryRun sampleRetryF sampleShouldRetry 5 1000 sampleJitter).outcome =
      Except.ok 7 :=
  ((retry_spec sampleRetryF sampleShouldRetry 5 1000 sampleJitter).2.1 7).mpr
    ⟨2, by decide, rfl,
     fun i hi => ⟨errBoom, by simp [sampleRetryF, hi], rfl⟩⟩

/-! ## Aggregation and final status -/

theorem countP_range_isOkAt :
    ∀ outcomes : List (Except E A),
      (List.range outcomes.length).countP
        (fun i => (taskEntry outcomes i).success) =
      outcomes.countP (fun o => o.isOk)
  | [] => rfl
  | o :: rest => by
      rw [List.length_cons, List.range_succ_eq_map, List.countP_cons,
        List.countP_map]
      have hq : ((fun i => (taskEntry (o :: rest) i).success) ∘ Nat.succ) =
          (fun i => (taskEntry rest i).success) := by
        funext i
        show (taskEntry (o :: rest) (i + 1)).success = _
        unfold taskEntry
        rw [List.get?_cons_succ]
        cases rest.get? i with
        | none => rfl
        | some x => cases x <;> rfl
      rw [hq, countP_range_isOkAt rest, List.countP_cons]
      congr 1
      cases o <;> rfl

theorem successCount_eq (f : Nat → Except E A) (pend : List Nat)
    (conc : Nat) (order : List Nat) (hc : 1 ≤ conc)
    (h : order.Perm (List.range pend.length)) :
    ((runWithConcurrency (pend.map f) conc order).filter
      (fun r => r.success)).length =
    (pend.filter (fun n => (f n).isOk)).length := by
  have hlen : (pend.map f).length = pend.length := List.length_map pend f
  by_cases hN : pend.length = 0
  · rw [runWithConcurrency, if_pos (by omega)]
    have hp : pend = [] := List.eq_nil_of_length_eq_zero hN
    subst hp
    rfl
  · rw [runWithConcurrency, if_neg (by omega)]
    rw [← List.countP_eq_length_filter, ← List.countP_eq_length_filter]
    calc ((sortByIndex (order.map (taskEntry (pend.map f)))).countP
            (fun r => r.success))
        = (order.map (taskEntry (pend.map f))).countP (fun r => r.success) :=
          (sortByIndex_perm (order.map (taskEntry (pend.map f)))).countP_eq _
      _ = order.countP ((fun r => r.success) ∘ taskEntry (pend.map f)) :=
          List.countP_map _ _ _
      _ = (List.range pend.length).countP
            ((fun r => r.success) ∘ taskEntry (pend.map f)) := h.countP_eq _
      _ = (List.range (pend.map f).length).countP
            (fun i => (taskEntry (pend.map f) i).success) := by
          rw [hlen]
          rfl
      _ = (pend.map f).countP (fun o => o.isOk) := countP_range_isOkAt _
      _ = pend.countP ((fun o => Except.isOk o) ∘ f) := List.countP_map _ _ _
      _ = pend.countP (fun n => (f n).isOk) := rfl

theorem setAdd_nodup (s : List Nat) (n : Nat) (h : s.Nodup) :
    (setAdd s n).Nodup := by
  unfold setAdd
  by_cases hn : n ∈ s
  · rw [if_pos hn]
    exact h
  · rw [if_neg hn]
    rw [← List.concat_eq_append]
    exact List.Nodup.concat hn h

theorem completedFold_nodup (k : AchievementId) :
    ∀ (ops : List OperationRecord) (acc : List Nat), acc.Nodup →
      (ops.foldl
        (fun acc op =>
          if op.achievementId = k ∧ op.status = OperationStatus.completed then
            setAdd acc op.operationNumber
          else acc) acc).Nodup
  | [], _, h => h
  | op :: rest, acc, h => by
      rw [List.foldl_cons]
      apply completedFold_nodup k rest
      by_cases hc : op.achievementId = k ∧
        op.status = OperationStatus.completed
      · rw [if_pos hc]
        exact setAdd_nodup acc op.operationNumber h
      · rw [if_neg hc]
        exact h

theorem getCompletedOperationNumbers_nodup (db : DatabaseData)
    (k : AchievementId) : (getCompletedOperationNumbers db k).Nodup :=
  completedFold_nodup k db.operations [] List.nodup_nil

theorem pendLen_add (S : List Nat) (T : Nat) (hns : S.Nodup)
    (hsub : ∀ n ∈ S, 1 ≤ n ∧ n ≤ T) :
    (pendingOpsOf T S).length + S.length = T := by
  unfold pendingOpsOf
  have h1 : ((List.range' 1 T).filter
      (fun i => decide (i ∈ S))).Nodup := by
    exact List.Nodup.filter _ (List.nodup_range' 1 T)
  have h2 : ∀ i : Nat,
      (i ∈ (List.range' 1 T).filter (fun i => decide (i ∈ S))) ↔ i ∈ S := by
    intro i
    rw [List.mem_filter]
    simp only [decide_eq_true_eq, List.mem_range'_1]
    constructor
    · rintro ⟨_, hi⟩
      exact hi
    · intro hi
      have hb := hsub i hi
      exact ⟨⟨hb.1, by omega⟩, hi⟩
  have h3 : ((List.range' 1 T).filter
      (fun i => decide (i ∈ S))).length = S.length := by
    have e1 := List.toFinset_card_of_nodup h1
    have e2 := List.toFinset_card_of_nodup hns
    have e3 : ((List.range' 1 T).filter
        (fun i => decide (i ∈ S))).toFinset = S.toFinset := by
      apply Finset.ext
      intro i
      simp only [List.mem_toFinset]
      exact h2 i
    rw [← e1, ← e2, e3]
  have h4 := List.length_eq_countP_add_countP
    (fun i => decide (i ∉ S)) (List.range' 1 T)
  rw [List.length_range'] at h4
  have h5 : (List.range' 1 T).countP
      (fun a => decide (¬(decide (a ∉ S) = true))) =
      (List.range' 1 T).countP (fun i => decide (i ∈ S)) := by
    apply List.countP_congr
    intro i _
    simp
  have h6 : ((List.range' 1 T).filter
      (fun i => decide (i ∉ S))).length =
      (List.range' 1 T).countP (fun i => decide (i ∉ S)) :=
    (List.countP_eq_length_filter _ _).symm
  have h7 : ((List.range' 1 T).filter
      (fun i => decide (i ∈ S))).length =
      (List.range' 1 T).countP (fun i => decide (i ∈ S)) :=
    (List.countP_eq_length_filter _ _).symm
  omega

theorem taskEffect_achievements (k : AchievementId) (opType : OperationType)
    (f : Nat → Except ErrorValue OpPayload) (now : String)
    (db : DatabaseData) (opNum : Nat) :
    (taskEffect k opType f now db opNum).achievements = db.achievements := by
  unfold taskEffect
  cases f opNum <;> rfl

theorem updateAchievementProgress_isSome (db : DatabaseData)
    (id : AchievementId) (c : Nat) (now : String) (j : AchievementId) :
    ((updateAchievementProgress db id c now).achievements j).isSome =
      (db.achievements j).isSome := by
  unfold updateAchievementProgress
  cases hd : db.achievements id with
  | none => rfl
  | some r =>
      by_cases hj : j = id
      · subst hj
        simp [hd]
      · simp [hj]

theorem runTasksFold_isSome (k : AchievementId) (opType : OperationType)
    (f : Nat → Except ErrorValue OpPayload) (now : String)
    (pend : List Nat) (cs : Nat) (j : AchievementId) :
    ∀ (order : List Nat) (acc : DatabaseData × Nat),
      (((order.foldl (runTaskStep k opType f now pend cs) acc).1).achievements
        j).isSome = ((acc.1).achievements j).isSome
  | [], _ => rfl
  | idx :: rest, acc => by
      rw [List.foldl_cons]
      rw [runTasksFold_isSome k opType f now pend cs j rest _]
      show ((updateAchievementProgress _ k _ now).achievements j).isSome = _
      rw [updateAchievementProgress_isSome, taskEffect_achievements]

/-- C3 (amended): for every run, `completedOperations` equals the number of
sequence numbers already completed before the run plus the number of tasks
of this run that reported success; the success flag of the result and the
persisted status are `completed` iff that sum is *at least* the target count
(the source compares with `>=`); when every previously completed sequence
number lies in `1..T` — the only situation the original claim anticipated —
the sum cannot exceed the target, and the flag is equivalent to the sum
*equalling* the target, as claimed. -/
theorem execute_aggregation (db : DatabaseData) (k : AchievementId)
    (name : String) (tier : TierLevel) (T : Nat) (concurrency : Nat)
    (opType : OperationType) (env : ExecEnv)
    (h : env.order.Perm (List.range
      (executePendingOps db k name tier T env.now).length)) :
    ∃ dbf res, execute db k name tier T concurrency opType env noFaults =
        Except.ok (dbf, res) ∧
      res.completedOperations =
        (getCompletedOperationNumbers db k).length +
          ((executePendingOps db k name tier T env.now).filter
            (fun n => (env.taskOutcome n).isOk)).length ∧
      (res.success = true ↔ T ≤ res.completedOperations) ∧
      res.totalOperations = T ∧
      (dbf.achievements k).map AchievementRecord.status =
        some (if T ≤ res.completedOperations then OperationStatus.completed
          else OperationStatus.failed) ∧
      ((∀ n ∈ getCompletedOperationNumbers db k, 1 ≤ n ∧ n ≤ T) →
        (res.success = true ↔ res.completedOperations = T)) := by
  have hce : 1 ≤ (if concurrency = 0 then 3 else concurrency) := by
    split <;> omega
  have hC : (getCompletedOperationNumbers
        (executeSetupDb db k name tier T env.now) k).length +
      ((runWithConcurrency
        ((executePendingOps db k name tier T env.now).map env.taskOutcome)
        (if concurrency = 0 then 3 else concurrency)
        env.order).filter (fun r => r.success)).length =
      (getCompletedOperationNumbers db k).length +
        ((executePendingOps db k name tier T env.now).filter
          (fun n => (env.taskOutcome n).isOk)).length := by
    rw [successCount_eq env.taskOutcome
      (executePendingOps db k name tier T env.now)
      (if concurrency = 0 then 3 else concurrency) env.order hce h]
    rw [show getCompletedOperationNumbers
        (executeSetupDb db k name tier T env.now) k =
        getCompletedOperationNumbers db k from
      executeCompletedNums_eq db k name tier T env.now]
  refine ⟨_, _, rfl, ?_, ?_, rfl, ?_, ?_⟩
  · exact hC
  · exact decide_eq_true_iff
  · have hsome : ((runTasksDb k opType env.taskOutcome env.now
        (executePendingOps db k name tier T env.now)
        (executeCompletedNums db k name tier T env.now).length
        (executeSetupDb db k name tier T env.now)
        env.order).achievements k).isSome = true := by
      unfold runTasksDb
      rw [runTasksFold_isSome]
      exact executeSetupDb_isSome db k name tier T env.now
    exact updateAchievementStatus_self_status _ k _ env.now hsome
  · intro hsub
    show decide (T ≤ (getCompletedOperationNumbers
        (executeSetupDb db k name tier T env.now) k).length +
      ((runWithConcurrency
        ((executePendingOps db k name tier T env.now).map env.taskOutcome)
        (if concurrency = 0 then 3 else concurrency)
        env.order).filter (fun r => r.success)).length) = true ↔
      (getCompletedOperationNumbers
        (executeSetupDb db k name tier T env.now) k).length +
      ((runWithConcurrency
        ((executePendingOps db k name tier T env.now).map env.taskOutcome)
        (if concurrency = 0 then 3 else concurrency)
        env.order).filter (fun r => r.success)).length = T
    rw [decide_eq_true_iff, hC]
    have hpl := pendLen_add (getCompletedOperationNumbers db k) T
      (getCompletedOperationNumbers_nodup db k) hsub
    have hfl := List.length_filter_le
      (fun n => (env.taskOutcome n).isOk)
      (executePendingOps db k name tier T env.now)
    have hpe : (executePendingOps db k name tier T env.now).length =
        (pendingOpsOf T (getCompletedOperationNumbers db k)).length := by
      unfold executePendingOps
      rw [executeCompletedNums_eq]
    omega

theorem execute_aggregation_witness :
    ∃ dbf res,
      execute sampleDb AchievementId.pullShark ("Pull Shark")
          TierLevel.bronze 10 3 OperationType.create_pr sampleEnv noFaults =
        Except.ok (dbf, res) ∧
      res.completedOperations = 9 := by
  obtain ⟨dbf, res, heq, hc, _⟩ := execute_aggregation sampleDb
    AchievementId.pullShark ("Pull Shark") TierLevel.bronze 10 3
    OperationType.create_pr sampleEnv (by decide)
  refine ⟨dbf, res, heq, ?_⟩
  rw [hc]
  decide

end GHA
